import Mathlib

/-!
Verification development for the i18n string reviewer's diff engine,
match cache and semantic matcher.

The JavaScript sources are shallowly embedded:
  * `src/comparator.js`  — `POTEntry`, `POTComparator`
  * `src/llm-cache.js`   — `LLMCache` (report-comment backed cache)
  * `src/llm-matcher.js` — `LLMMatcher` (current revision), together with the
    cache-integrated revision of `findBestMatch` kept in the repository's
    bundled build output.

JS strings are modelled as Lean `String`; the JS string operations the
sources use (`trim`, `split`, `startsWith`, `endsWith`, `includes`,
`slice`, `substring`, `replace`) are re-implemented structurally over the
character list `String.data` so that every definition evaluates inside the
kernel.  JS `Map` objects and plain objects are both modelled as
insertion-ordered association lists whose assignment overwrites an existing
key in place, mirroring `Map.prototype.set` and property assignment.
`.length` counts characters rather than UTF-16 units; the two agree on all
strings handled by the claims here.
-/

namespace I18nReview

/-- Whitespace recognised by the model of `String.prototype.trim`; the JS
method strips a few more exotic code points, which never occur in the data
the sources handle. -/
def jsIsWs (c : Char) : Bool :=
  c = ' ' || c = '\t' || c = '\n' || c = '\r'

/-- Model of `s.trim()`. -/
def jsTrim (s : String) : String :=
  ⟨((s.data.dropWhile jsIsWs).reverse.dropWhile jsIsWs).reverse⟩

/-- Model of `s.startsWith(pre)`. -/
def jsStartsWith (s pre : String) : Bool :=
  pre.data.isPrefixOf s.data

/-- Model of `s.endsWith(suf)`. -/
def jsEndsWith (s suf : String) : Bool :=
  suf.data.reverse.isPrefixOf s.data.reverse

/-- Model of `s.length` (JS counts UTF-16 units; identical on the
basic-plane strings handled here). -/
def jsLength (s : String) : Nat :=
  s.data.length

/-- Model of `s.substring(0, n)` (and of `s.slice(0, n)` for `0 ≤ n`). -/
def jsTake (s : String) (n : Nat) : String :=
  ⟨s.data.take n⟩

/-- Model of `s.slice(0, -n)`: drop the last `n` characters. -/
def jsDropRight (s : String) (n : Nat) : String :=
  ⟨s.data.take (s.data.length - n)⟩

/-- `sub.isPrefixOf`-based scan underlying `jsIncludes`. -/
def containsAux (sub : List Char) : List Char → Bool
  | [] => sub.isPrefixOf []
  | c :: rest => sub.isPrefixOf (c :: rest) || containsAux sub rest

/-- Model of `s.includes(sub)`. -/
def jsIncludes (s sub : String) : Bool :=
  containsAux sub.data s.data

/-- Fuel-driven worker for `jsSplit`: scan the character list, cutting at
each occurrence of the (non-empty) separator.  The fuel is an upper bound
on the number of characters still to be scanned, which makes the recursion
structural and hence kernel-reducible. -/
def splitCharsAux (sep : List Char) : Nat → List Char → List Char → List (List Char)
  | 0, _, acc => [acc.reverse]
  | _ + 1, [], acc => [acc.reverse]
  | fuel + 1, c :: rest, acc =>
    if sep.isPrefixOf (c :: rest) then
      acc.reverse :: splitCharsAux sep fuel (List.drop (sep.length - 1) rest) []
    else
      splitCharsAux sep fuel rest (c :: acc)

/-- Model of `s.split(sep)` for a non-empty string separator. -/
def jsSplit (s sep : String) : List String :=
  (splitCharsAux sep.data (s.data.length + 1) s.data []).map fun l => ⟨l⟩

/-- Fuel-driven worker for `jsReplaceAll`: replace every (non-overlapping,
leftmost-first) occurrence of `pat` by `rep`, as `s.split(pat).join(rep)`
does in the source. -/
def replaceCharsAux (pat rep : List Char) : Nat → List Char → List Char
  | 0, l => l
  | _ + 1, [] => []
  | fuel + 1, c :: rest =>
    if pat.isPrefixOf (c :: rest) then
      rep ++ replaceCharsAux pat rep fuel (List.drop (pat.length - 1) rest)
    else
      c :: replaceCharsAux pat rep fuel rest

/-- Model of `s.split(pat).join(rep)` for a non-empty `pat`. -/
def jsReplaceAll (s pat rep : String) : String :=
  ⟨replaceCharsAux pat.data rep.data (s.data.length + 1) s.data⟩

/-! ### Insertion-ordered string-keyed maps

`obj` models both a JS `Map` (comparator entry maps) and a plain JS object
(the LLM cache): assignment to an existing key updates the stored value in
place, assignment to a fresh key appends.  Lookup returns the first (and,
by construction, only) binding. -/

/-- `m[k] = v` / `m.set(k, v)`: overwrite in place or append. -/
def objSet {α : Type} (m : List (String × α)) (k : String) (v : α) :
    List (String × α) :=
  match m with
  | [] => [(k, v)]
  | (k', v') :: rest => if k' = k then (k, v) :: rest else (k', v') :: objSet rest k v

/-- `m[k]` / `m.get(k)` as an `Option`. -/
def objGet {α : Type} (m : List (String × α)) (k : String) : Option α :=
  match m with
  | [] => none
  | (k', v') :: rest => if k' = k then some v' else objGet rest k

/-- `m.has(k)` / key membership. -/
def objHas {α : Type} (m : List (String × α)) (k : String) : Bool :=
  (objGet m k).isSome

/-! ### Entry model (`src/comparator.js`, class `POTEntry`) -/

/-- The fixed-shape comment bundle the `POTEntry` constructor builds
(each field defaulted to the empty string via `comments.x || ''`). -/
structure POTComments where
  translator : String := ""
  extracted : String := ""
  reference : String := ""
  flag : String := ""
  deriving DecidableEq

/-- One catalog entry, as built by the `POTEntry` constructor. -/
structure POTEntry where
  msgid : String
  msgidPlural : String := ""
  msgctxt : String := ""
  comments : POTComments := {}
  deriving DecidableEq

/-- `POTEntry.getKey`: `this.msgctxt ? msgctxt + "||" + msgid : msgid`
(the empty string is falsy in JS). -/
def POTEntry.getKey (e : POTEntry) : String :=
  if e.msgctxt ≠ "" then e.msgctxt ++ "||" ++ e.msgid else e.msgid

/-- `POTEntry.hasChangedContent`: only the actual string content is
checked, comments are ignored — `this.msgidPlural !== other.msgidPlural`. -/
def POTEntry.hasChangedContent (e other : POTEntry) : Bool :=
  e.msgidPlural != other.msgidPlural

/-! ### Catalog index (`POTComparator._processEntries`)

`gettext-parser` hands the comparator `parsed.translations`, a
context-keyed object of msgid-keyed objects; the raw per-msgid payload is
modelled by `RawData`.  The entry maps are JS `Map`s, modelled by `obj`
association lists. -/

/-- Raw `data.comments` bundle as the parser provides it (each field may
be absent). -/
structure RawComments where
  translator : Option String := none
  extracted : Option String := none
  reference : Option String := none
  flag : Option String := none
  deriving DecidableEq

/-- Raw per-msgid record from `parsed.translations[context][msgid]`. -/
structure RawData where
  msgid_plural : Option String := none
  msgctxt : Option String := none
  comments : Option RawComments := none
  deriving DecidableEq

/-- The comparator's entry maps (`this.baseEntries` / `this.targetEntries`). -/
abbrev EntriesMap := List (String × POTEntry)

/-- `parsed.translations`: context → (msgid → data). -/
abbrev ParsedTranslations := List (String × List (String × RawData))

/-- The `comments: {...}` argument built in `_processEntries`:
`data.comments?.translator || ''` and so on. -/
def commentsOfRaw (c : Option RawComments) : POTComments :=
  { translator := (c.bind RawComments.translator).getD ""
    extracted := (c.bind RawComments.extracted).getD ""
    reference := (c.bind RawComments.reference).getD ""
    flag := (c.bind RawComments.flag).getD "" }

/-- The `POTEntry` built for a record of the default (`''`) context:
`msgctxt: data.msgctxt || ''`. -/
def entryOfDefault (msgid : String) (data : RawData) : POTEntry :=
  { msgid := msgid
    msgidPlural := data.msgid_plural.getD ""
    msgctxt := data.msgctxt.getD ""
    comments := commentsOfRaw data.comments }

/-- The `POTEntry` built for a record of a named context:
`msgctxt: context`. -/
def entryOfContext (context msgid : String) (data : RawData) : POTEntry :=
  { msgid := msgid
    msgidPlural := data.msgid_plural.getD ""
    msgctxt := context
    comments := commentsOfRaw data.comments }

/-- `POTComparator._processEntries(parsed, entriesMap)`: first the default
context (`parsed.translations[''] || {}`), skipping the header entry
(empty msgid), then every other context; each entry is inserted with
`entriesMap.set(entry.getKey(), entry)`. -/
def POTComparator.processEntries (parsed : ParsedTranslations)
    (entriesMap : EntriesMap) : EntriesMap :=
  let defaultTranslations := (objGet parsed "").getD []
  let m1 := defaultTranslations.foldl
    (fun m p =>
      if p.1 = "" then m
      else
        let e := entryOfDefault p.1 p.2
        objSet m e.getKey e)
    entriesMap
  parsed.foldl
    (fun m cp =>
      if cp.1 = "" then m
      else
        cp.2.foldl
          (fun m p =>
            if p.1 = "" then m
            else
              let e := entryOfContext cp.1 p.1 p.2
              objSet m e.getKey e)
          m)
    m1

/-! ### Diff engine (`POTComparator.compare`) -/

/-- Insertion-ordered key list of an entries map (`[...map.keys()]`). -/
def mapKeys (m : EntriesMap) : List String := m.map Prod.fst

/-- `[...targetKeys].filter(key => !baseKeys.has(key))`. -/
def POTComparator.addedKeys (base target : EntriesMap) : List String :=
  (mapKeys target).filter fun k => !(mapKeys base).contains k

/-- `[...baseKeys].filter(key => !targetKeys.has(key))`. -/
def POTComparator.removedKeys (base target : EntriesMap) : List String :=
  (mapKeys base).filter fun k => !(mapKeys target).contains k

/-- `[...baseKeys].filter(key => targetKeys.has(key))`. -/
def POTComparator.commonKeys (base target : EntriesMap) : List String :=
  (mapKeys base).filter fun k => (mapKeys target).contains k

/-- The `added` / `removed` / `changed` sets `compare()` stores on the
comparator (pairs model the pushed `{base, target}` objects). -/
structure CompareResult where
  added : List POTEntry
  removed : List POTEntry
  changed : List (POTEntry × POTEntry)
  deriving DecidableEq

/-- `POTComparator.compare`: map the added/removed key lists through the
respective entry maps and keep the common-key pairs whose content changed
(`hasChangedContent`).  The `Option`-valued `objGet` never misses because
every selected key comes from the map it is looked up in. -/
def POTComparator.compare (base target : EntriesMap) : CompareResult :=
  { added := (POTComparator.addedKeys base target).filterMap fun k => objGet target k
    removed := (POTComparator.removedKeys base target).filterMap fun k => objGet base k
    changed := (POTComparator.commonKeys base target).filterMap fun k =>
      match objGet base k, objGet target k with
      | some baseEntry, some targetEntry =>
        if baseEntry.hasChangedContent targetEntry then some (baseEntry, targetEntry)
        else none
      | _, _ => none }

/-- `POTComparator.getTotalChanges`. -/
def POTComparator.getTotalChanges (r : CompareResult) : Nat :=
  r.added.length + r.removed.length + r.changed.length

/-! ### Match cache (`src/llm-cache.js`, class `LLMCache`) -/

/-- An answer object from the matcher: `{match: m}` (with `m = none`
modelling `{match: null}`) or `{error: e}`. -/
inductive LLMResult where
  | answer : Option String → LLMResult
  | failure : String → LLMResult
  deriving DecidableEq

/-- One stored cache value.  Entries written by `set` carry the model and
no `fromReport` flag; entries converted from a parsed report carry
`fromReport: true` and no model.  The timestamp the source stores is never
read back and is omitted. -/
structure CacheEntry where
  newString : String
  model : Option String := none
  result : LLMResult
  fromReport : Bool := false
  deriving DecidableEq

/-- The cache's observable state: the keyed store `this.cache` plus the
dirty flag `this.modified`. -/
structure LLMCache where
  cache : List (String × CacheEntry) := []
  modified : Bool := false
  deriving DecidableEq

/-- `LLMCache.generateKey(newString, model)`: the source takes the md5 hex
digest of `newString + ":" + model`; the digest is modelled by the digested
text itself, since the cache relies only on the key's determinism (the
source likewise treats the digest as collision-free). -/
def LLMCache.generateKey (newString model : String) : String :=
  "md5:" ++ newString ++ ":" ++ model

/-- The fuzzy-fallback test from the final loop of `LLMCache.get`: the
entry must have come from a parsed report with a non-empty recorded
string, and either records an ellipsis-terminated truncation whose prefix
the live query extends, or — for live queries longer than 40 characters —
starts with the live query's first 40 characters. -/
def fuzzyHit (newString : String) (v : CacheEntry) : Bool :=
  v.fromReport && (v.newString != "") &&
    ((jsEndsWith v.newString "..." && jsStartsWith newString (jsDropRight v.newString 3)) ||
      (decide (40 < jsLength newString) && jsStartsWith v.newString (jsTake newString 40)))

/-- `LLMCache.get(newString, model)`: the model-specific hashed key first,
then the direct string key (for report-extracted entries), then the fuzzy
truncation fallback over the stored entries in order. -/
def LLMCache.get (c : LLMCache) (newString model : String) : Option CacheEntry :=
  match objGet c.cache (LLMCache.generateKey newString model) with
  | some v => some v
  | none =>
    match objGet c.cache newString with
    | some v => some v
    | none => (c.cache.find? fun kv => fuzzyHit newString kv.2).map Prod.snd

/-- `LLMCache.set(newString, model, result)`: upsert under the hashed key
and mark the store dirty. -/
def LLMCache.set (c : LLMCache) (newString model : String) (result : LLMResult) : LLMCache :=
  { cache := objSet c.cache (LLMCache.generateKey newString model)
      { newString := newString, model := some model, result := result, fromReport := false }
    modified := true }

/-- `LLMCache.getReportCommentIdentifier()`. -/
def LLMCache.getReportCommentIdentifier : String :=
  "### 🌍 i18n String Review Report"

/-- The characters `_unescapeMarkdown` unescapes, in source order. -/
def unescapeChars : List String :=
  ["\\", "`", "*", "_", "\x7b", "\x7d", "[", "]", "(", ")", "#", "+", "-", ".", "!"]

/-- `LLMCache._unescapeMarkdown`: strip one level of markdown escaping via
`split("\\" + char).join(char)` per character; the source's trailing-`...`
branch returns the string unchanged either way and needs no model. -/
def LLMCache.unescapeMarkdown (text : String) : String :=
  unescapeChars.foldl (fun s c => jsReplaceAll s ("\\" ++ c) c) text

/-- `LLMCache._isValidMatch(newString, suggestedMatch)`. -/
def LLMCache.isValidMatch (newString suggestedMatch : String) : Bool :=
  if suggestedMatch = "" ∨ newString = "" then false
  else if suggestedMatch = "-" ∨ suggestedMatch = "..." then false
  else if jsStartsWith suggestedMatch "*" then false
  else if jsStartsWith suggestedMatch "LLM Error" then false
  else if jsIncludes suggestedMatch "and " ∧ jsIncludes suggestedMatch "more" then false
  else if jsLength newString = 0 then false
  else true

/-- One row recorded by `extractCacheFromComment`
(`{newString, match}`; the match cell is named `matchText` here). -/
structure ExtractedEntry where
  newString : String
  matchText : String
  deriving DecidableEq

/-- The line scanner's state in `extractCacheFromComment`. -/
structure ExtractState where
  inAddedTable : Bool := false
  inChangedTable : Bool := false
  cache : List (String × ExtractedEntry) := []
  extractedCount : Nat := 0
  deriving DecidableEq

/-- The guarded row insertion shared by the added-table and changed-table
branches of `extractCacheFromComment`. -/
def insertRow (st : ExtractState) (rawNew rawMatch : String) : ExtractState :=
  let newString := LLMCache.unescapeMarkdown rawNew
  let suggestedMatch := LLMCache.unescapeMarkdown rawMatch
  if LLMCache.isValidMatch newString suggestedMatch then
    { st with
        cache := objSet st.cache newString ⟨newString, suggestedMatch⟩
        extractedCount := st.extractedCount + 1 }
  else st

/-- `const cells = line.split('|').map(c => c.trim()).filter(c => c.length > 0)`. -/
def tableCells (line : String) : List String :=
  ((jsSplit line "|").map jsTrim).filter fun c => 0 < jsLength c

/-- The table-row part of `extractCacheFromComment`'s loop body: skip
header/separator/footer rows (`cells[0]` is `(tableCells line).headD ""`),
then extract from a 4-column added-strings row or a 5-column
changed-strings row according to the current table flags. -/
def extractRowStep (st : ExtractState) (line : String) : ExtractState :=
  if (tableCells line).length = 0 ∨
      jsIncludes ((tableCells line).headD "") "---" ∨
      jsIncludes ((tableCells line).headD "") "String" ∨
      jsIncludes ((tableCells line).headD "") "**Total**" ∨
      (tableCells line).headD "" = "..." then st
  else if st.inAddedTable ∧ 4 ≤ (tableCells line).length then
    insertRow st ((tableCells line).headD "") ((tableCells line).getD 3 "")
  else if st.inChangedTable ∧ 5 ≤ (tableCells line).length then
    insertRow st ((tableCells line).headD "") ((tableCells line).getD 4 "")
  else st

/-- `extractCacheFromComment`'s loop body applied to the already-trimmed
line: table detection first, then the table-row filter, then the row
extraction. -/
def extractTrimmedLine (st : ExtractState) (line : String) : ExtractState :=
  if jsIncludes line "Added Strings" then
    { st with inAddedTable := true, inChangedTable := false }
  else if jsIncludes line "Changed Strings" then
    { st with inChangedTable := true, inAddedTable := false }
  else if jsIncludes line "Removed Strings" then
    { st with inAddedTable := false, inChangedTable := false }
  else if line = "</details>" then
    { st with inAddedTable := false, inChangedTable := false }
  else if ¬(jsStartsWith line "|" ∧ jsEndsWith line "|") then st
  else extractRowStep st line

/-- One iteration of `extractCacheFromComment`'s `for` loop:
`const line = lines[i].trim()` and then the classified handling. -/
def extractLineStep (st : ExtractState) (rawLine : String) : ExtractState :=
  extractTrimmedLine st (jsTrim rawLine)

/-- `LLMCache.extractCacheFromComment(commentBody)`: `null` (`none`) for a
falsy body, a body without the report identifier, or a scan that extracted
nothing; otherwise the accumulated string-keyed row mapping. -/
def LLMCache.extractCacheFromComment (commentBody : String) :
    Option (List (String × ExtractedEntry)) :=
  if commentBody = "" then none
  else if ¬jsIncludes commentBody LLMCache.getReportCommentIdentifier then none
  else if 0 < ((jsSplit commentBody "\n").foldl extractLineStep {}).extractedCount then
    some ((jsSplit commentBody "\n").foldl extractLineStep {}).cache
  else none

/-- The internal-format entry `_convertExtractedCache` builds for one
extracted row. -/
def reportEntry (row : ExtractedEntry) : CacheEntry :=
  { newString := row.newString
    model := none
    result := LLMResult.answer (some row.matchText)
    fromReport := true }

/-- `LLMCache._convertExtractedCache(extractedCache)`: re-key every
extracted row as a report-flagged entry with a `{match: ...}` result. -/
def LLMCache.convertExtractedCache (extracted : List (String × ExtractedEntry)) :
    List (String × CacheEntry) :=
  extracted.foldl (fun cache p => objSet cache p.1 (reportEntry p.2)) []

/-! ### Semantic matcher (`src/llm-matcher.js`, class `LLMMatcher`)

`callOpenRouter` is an opaque network call; one call's observable outcome
is abstracted as an `OracleOutcome` supplied per batch index: the promise
either resolves with a result object (`{match: ...}` / `{error: ...}`) or
rejects (non-success HTTP status, network error, timeout), which `await`
turns into an exception. -/

/-- One oracle call's observable outcome. -/
inductive OracleOutcome where
  | resolved : LLMResult → OracleOutcome
  | thrown : String → OracleOutcome
  deriving DecidableEq

/-- `findBestMatch`'s observable outcome: a returned result object or a
propagated exception. -/
inductive MatchOutcome where
  | returned : LLMResult → MatchOutcome
  | raised : String → MatchOutcome
  deriving DecidableEq

/-- JS truthiness of `result.match` (`undefined`, `null` and `""` are
falsy). -/
def matchTruthy : LLMResult → Bool
  | .answer (some s) => s != ""
  | _ => false

/-- JS truthiness of `result.error`. -/
def errorTruthy : LLMResult → Bool
  | .failure e => e != ""
  | _ => false

/-- `const batchSize = 1000`. -/
def batchSize : Nat := 1000

/-- `const maxBatches = 10`. -/
def maxBatches : Nat := 10

/-- The candidate filter in `findBestMatch`:
`msgid && msgid.trim().length > 0 && msgid.length < 200`. -/
def filterBaseStrings (baseEntries : List POTEntry) : List String :=
  (baseEntries.map POTEntry.msgid).filter fun s =>
    (s != "") && decide (0 < jsLength (jsTrim s)) && decide (jsLength s < 200)

/-- `baseStrings.slice(i * batchSize, min(i * batchSize + batchSize, length))`;
`take` clamps at the list's end exactly as the `min` does. -/
def batchAt (baseStrings : List String) (i : Nat) : List String :=
  (baseStrings.drop (i * batchSize)).take batchSize

/-- `Math.min(maxBatches, Math.ceil(baseStrings.length / batchSize))`, the
batch loop's iteration bound. -/
def numBatches (baseStrings : List String) : Nat :=
  min maxBatches ((baseStrings.length + (batchSize - 1)) / batchSize)

/-- Observable effect of one cache-integrated `findBestMatch` call: the
outcome, the cache state after the call, and the batches actually sent to
the oracle (batch index with batch contents), in order. -/
structure MatchRun where
  outcome : MatchOutcome
  cache : LLMCache
  calls : List (Nat × List String)
  deriving DecidableEq

/-- The batch loop of the cache-integrated `findBestMatch` revision;
`remaining` counts the iterations the `i < min(maxBatches, ceil(...))`
guard still allows.  A truthy `result.match` is cached and returned, a
truthy `result.error` is returned without caching, a rejection propagates
the exception (the surrounding `catch` re-throws), and an exhausted loop
caches and returns `{match: null}`. -/
def batchLoopCached (newString model : String) (baseStrings : List String)
    (oracle : Nat → OracleOutcome) (c : LLMCache) : Nat → Nat → MatchRun
  | _, 0 =>
    { outcome := .returned (.answer none)
      cache := c.set newString model (.answer none)
      calls := [] }
  | i, remaining + 1 =>
    let batch := batchAt baseStrings i
    match oracle i with
    | .thrown e => { outcome := .raised e, cache := c, calls := [(i, batch)] }
    | .resolved res =>
      if matchTruthy res then
        { outcome := .returned res
          cache := c.set newString model res
          calls := [(i, batch)] }
      else if errorTruthy res then
        { outcome := .returned res, cache := c, calls := [(i, batch)] }
      else
        let rest := batchLoopCached newString model baseStrings oracle c (i + 1) remaining
        { rest with calls := (i, batch) :: rest.calls }

/-- The cache-integrated `LLMMatcher.findBestMatch` revision bundled with
the repository (credential presence check, cache consultation, credential
format check, emptiness checks, candidate filtering, then the batch
loop). -/
def findBestMatchCached (newString : String) (baseEntries : List POTEntry)
    (apiKey model : String) (c : LLMCache) (oracle : Nat → OracleOutcome) : MatchRun :=
  if jsTrim apiKey = "" then
    { outcome := .returned (.answer none), cache := c, calls := [] }
  else
    match c.get newString model with
    | some cached => { outcome := .returned cached.result, cache := c, calls := [] }
    | none =>
      if ¬jsStartsWith apiKey "sk-or-" then
        { outcome := .returned (.failure "Invalid key format"), cache := c, calls := [] }
      else if jsTrim newString = "" then
        { outcome := .returned (.answer none), cache := c, calls := [] }
      else if baseEntries.isEmpty then
        { outcome := .returned (.answer none), cache := c, calls := [] }
      else
        let baseStrings := filterBaseStrings baseEntries
        if baseStrings.isEmpty then
          { outcome := .returned (.answer none), cache := c, calls := [] }
        else
          batchLoopCached newString model baseStrings oracle c 0 (numBatches baseStrings)

/-- Observable effect of the current (cache-free) `findBestMatch`. -/
structure MatchRunNC where
  outcome : MatchOutcome
  calls : List (Nat × List String)
  deriving DecidableEq

/-- The batch loop of the current `src/llm-matcher.js` `findBestMatch`
(identical to the cached revision's loop except that no result is ever
written to a cache). -/
def batchLoopNC (baseStrings : List String) (oracle : Nat → OracleOutcome) :
    Nat → Nat → MatchRunNC
  | _, 0 => { outcome := .returned (.answer none), calls := [] }
  | i, remaining + 1 =>
    let batch := batchAt baseStrings i
    match oracle i with
    | .thrown e => { outcome := .raised e, calls := [(i, batch)] }
    | .resolved res =>
      if matchTruthy res then { outcome := .returned res, calls := [(i, batch)] }
      else if errorTruthy res then { outcome := .returned res, calls := [(i, batch)] }
      else
        let rest := batchLoopNC baseStrings oracle (i + 1) remaining
        { rest with calls := (i, batch) :: rest.calls }

/-- `LLMMatcher.findBestMatch` as in the current `src/llm-matcher.js`:
fast exits (credential presence, credential format, empty query, empty
pool), candidate filtering, then the bounded batch loop.  The `model`
argument only reaches the oracle call, which the `oracle` parameter
abstracts. -/
def LLMMatcher.findBestMatch (newString : String) (baseEntries : List POTEntry)
    (apiKey model : String) (oracle : Nat → OracleOutcome) : MatchRunNC :=
  if jsTrim apiKey = "" then
    { outcome := .returned (.answer none), calls := [] }
  else if ¬jsStartsWith apiKey "sk-or-" then
    { outcome := .returned (.failure "Invalid key format"), calls := [] }
  else if jsTrim newString = "" then
    { outcome := .returned (.answer none), calls := [] }
  else if baseEntries.isEmpty then
    { outcome := .returned (.answer none), calls := [] }
  else
    let baseStrings := filterBaseStrings baseEntries
    if baseStrings.isEmpty then
      { outcome := .returned (.answer none), calls := [] }
    else
      batchLoopNC baseStrings oracle 0 (numBatches baseStrings)

/-! ### Concrete instances used by witnesses and counterexamples -/

/-- A report-originated cache entry recording the truncated query
`"Please sign in to cont..."`. -/
def truncatedEntry : CacheEntry :=
  { newString := "Please sign in to cont..."
    result := LLMResult.answer (some "Please log in to continue")
    fromReport := true }

/-- A cache populated (as report extraction would) with only
`truncatedEntry`. -/
def truncatedCache : LLMCache :=
  { cache := [("Please sign in to cont...", truncatedEntry)] }

/-- A 40-character live query for the fuzzy-fallback boundary. -/
def boundaryQuery : String := "0123456789012345678901234567890123456789"

/-- A report-originated entry whose recorded query extends
`boundaryQuery` by three characters (and is not ellipsis-terminated). -/
def boundaryEntry : CacheEntry :=
  { newString := boundaryQuery ++ "ABC"
    result := LLMResult.answer (some "X")
    fromReport := true }

/-- A cache holding only `boundaryEntry` under its recorded-query key. -/
def boundaryCache : LLMCache :=
  { cache := [(boundaryQuery ++ "ABC", boundaryEntry)] }

/-- A minimal report comment with one extractable added-strings row. -/
def sampleReportBody : String :=
  "### 🌍 i18n String Review Report\nAdded Strings\n| Hello | loc | 1 | World |"

/-! ## Theorems -/

/-! ### Association-list map lemmas -/

theorem objGet_objSet_self {α : Type} (m : List (String × α)) (k : String) (v : α) :
    objGet (objSet m k v) k = some v := by
  induction m with
  | nil => simp [objSet, objGet]
  | cons hd tl ih =>
    obtain ⟨k', v'⟩ := hd
    by_cases h : k' = k
    · simp [objSet, objGet, h]
    · simp [objSet, objGet, h, ih]

theorem objGet_objSet_ne {α : Type} (m : List (String × α)) (k k' : String) (v : α)
    (h : k' ≠ k) : objGet (objSet m k v) k' = objGet m k' := by
  induction m with
  | nil => simp [objSet, objGet, Ne.symm h]
  | cons hd tl ih =>
    obtain ⟨k₀, v₀⟩ := hd
    by_cases h₀ : k₀ = k
    · subst h₀
      simp [objSet, objGet, Ne.symm h]
    · by_cases h₁ : k₀ = k'
      · simp [objSet, objGet, h₀, h₁, h]
      · simp [objSet, objGet, h₀, h₁, ih]

theorem keys_objSet {α : Type} (m : List (String × α)) (k : String) (v : α)
    (h : objHas m k = false) :
    (objSet m k v).map Prod.fst = m.map Prod.fst ++ [k] := by
  induction m with
  | nil => simp [objSet]
  | cons hd tl ih =>
    obtain ⟨k', v'⟩ := hd
    by_cases hk : k' = k
    · simp [objHas, objGet, hk] at h
    · simp [objHas, objGet, hk] at h
      simp [objSet, hk, ih, objHas, h]

theorem keys_objSet_has {α : Type} (m : List (String × α)) (k : String) (v : α)
    (h : objHas m k = true) :
    (objSet m k v).map Prod.fst = m.map Prod.fst := by
  induction m with
  | nil => simp [objHas, objGet] at h
  | cons hd tl ih =>
    obtain ⟨k', v'⟩ := hd
    by_cases hk : k' = k
    · simp [objSet, hk]
    · simp [objHas, objGet, hk] at h
      simp [objSet, hk, ih, objHas, h]

theorem objHas_iff_mem {α : Type} (m : List (String × α)) (k : String) :
    objHas m k = true ↔ k ∈ m.map Prod.fst := by
  induction m with
  | nil => simp [objHas, objGet]
  | cons hd tl ih =>
    obtain ⟨k', v'⟩ := hd
    by_cases hk : k' = k
    · simp [objHas, objGet, hk]
    · simp only [objHas, objGet, hk, if_false, List.map_cons, List.mem_cons]
      rw [← objHas]
      simp [ih, Ne.symm hk]

theorem nodup_keys_objSet {α : Type} (m : List (String × α)) (k : String) (v : α)
    (h : (m.map Prod.fst).Nodup) : ((objSet m k v).map Prod.fst).Nodup := by
  by_cases hk : objHas m k = true
  · rw [keys_objSet_has m k v hk]; exact h
  · rw [keys_objSet m k v (by simpa using hk)]
    have hkm : k ∉ m.map Prod.fst := fun hmem =>
      hk ((objHas_iff_mem m k).mpr hmem)
    simp [List.nodup_append, h, hkm]

theorem foldl_preserves {β σ : Type} (P : σ → Prop) (f : σ → β → σ)
    (h : ∀ s b, P s → P (f s b)) (l : List β) (s : σ) (hs : P s) :
    P (l.foldl f s) := by
  induction l generalizing s with
  | nil => exact hs
  | cons hd tl ih => exact ih (f s hd) (h s hd hs)

theorem mem_mapKeys_iff_get (m : EntriesMap) (k : String) :
    k ∈ mapKeys m ↔ ∃ e, objGet m k = some e := by
  rw [mapKeys, ← objHas_iff_mem, objHas, Option.isSome_iff_exists]

/-! ### Claim theorems: entry model and diff engine -/

/-- C1: for entries with equal identity key, `hasChangedContent` is true
exactly when the `msgidPlural` values differ, and differences confined to
the comment metadata never yield a changed classification. -/
theorem hasChangedContent_iff_plural (a b : POTEntry) (h : a.getKey = b.getKey) :
    (POTEntry.hasChangedContent a b = true ↔ a.msgidPlural ≠ b.msgidPlural) ∧
    (∀ ca cb : POTComments, a.msgidPlural = b.msgidPlural →
      POTEntry.hasChangedContent { a with comments := ca } { b with comments := cb } = false) := by
  constructor
  · simp [POTEntry.hasChangedContent]
  · intro ca cb hp
    simp [POTEntry.hasChangedContent, hp]

/-- Witness for C1: same key, same plural, differing translator notes —
not classified as changed. -/
theorem hasChangedContent_iff_plural_witness :
    (POTEntry.hasChangedContent
        { msgid := "Submit", comments := { translator := "note A" } }
        { msgid := "Submit", comments := { translator := "note B" } } = true ↔
      ("" : String) ≠ "") ∧
    (∀ ca cb : POTComments, ("" : String) = "" →
      POTEntry.hasChangedContent
        { msgid := "Submit", comments := ca } { msgid := "Submit", comments := cb } = false) :=
  hasChangedContent_iff_plural
    { msgid := "Submit", comments := { translator := "note A" } }
    { msgid := "Submit", comments := { translator := "note B" } } rfl

/-- C2: `compare` classifies exactly as the key sets dictate — added are
the target entries at target-only keys, removed the base entries at
base-only keys, changed the content-changed pairs at common keys; the
three key lists partition the union of the two key sets, and
`getTotalChanges` is the sum of the three set sizes. -/
theorem compare_partition (base target : EntriesMap) :
    (∀ e ∈ (POTComparator.compare base target).added,
        ∃ k, k ∈ mapKeys target ∧ k ∉ mapKeys base ∧ objGet target k = some e) ∧
    (∀ k ∈ mapKeys target, k ∉ mapKeys base →
        ∃ e, objGet target k = some e ∧ e ∈ (POTComparator.compare base target).added) ∧
    (∀ e ∈ (POTComparator.compare base target).removed,
        ∃ k, k ∈ mapKeys base ∧ k ∉ mapKeys target ∧ objGet base k = some e) ∧
    (∀ k ∈ mapKeys base, k ∉ mapKeys target →
        ∃ e, objGet base k = some e ∧ e ∈ (POTComparator.compare base target).removed) ∧
    (∀ p ∈ (POTComparator.compare base target).changed,
        ∃ k, k ∈ mapKeys base ∧ k ∈ mapKeys target ∧
          objGet base k = some p.1 ∧ objGet target k = some p.2 ∧
          POTEntry.hasChangedContent p.1 p.2 = true) ∧
    (∀ k b t, k ∈ mapKeys base → k ∈ mapKeys target →
        objGet base k = some b → objGet target k = some t →
        POTEntry.hasChangedContent b t = true →
        (b, t) ∈ (POTComparator.compare base target).changed) ∧
    (∀ k, (k ∈ POTComparator.addedKeys base target ∨
           k ∈ POTComparator.removedKeys base target ∨
           k ∈ POTComparator.commonKeys base target) ↔
          (k ∈ mapKeys base ∨ k ∈ mapKeys target)) ∧
    (∀ k, ¬(k ∈ POTComparator.addedKeys base target ∧
            k ∈ POTComparator.removedKeys base target) ∧
          ¬(k ∈ POTComparator.addedKeys base target ∧
            k ∈ POTComparator.commonKeys base target) ∧
          ¬(k ∈ POTComparator.removedKeys base target ∧
            k ∈ POTComparator.commonKeys base target)) ∧
    POTComparator.getTotalChanges (POTComparator.compare base target) =
      (POTComparator.compare base target).added.length +
        (POTComparator.compare base target).removed.length +
        (POTComparator.compare base target).changed.length := by
  refine ⟨?_, ?_, ?_, ?_, ?_, ?_, ?_, ?_, rfl⟩
  · intro e he
    rw [POTComparator.compare] at he
    simp only [List.mem_filterMap] at he
    obtain ⟨k, hk, hget⟩ := he
    simp only [POTComparator.addedKeys, List.mem_filter, Bool.not_eq_true',
      ← Bool.not_eq_true] at hk
    refine ⟨k, hk.1, ?_, hget⟩
    simpa using hk.2
  · intro k hkt hkb
    obtain ⟨e, he⟩ := (mem_mapKeys_iff_get target k).mp hkt
    refine ⟨e, he, ?_⟩
    rw [POTComparator.compare]
    simp only [List.mem_filterMap]
    refine ⟨k, ?_, he⟩
    simp [POTComparator.addedKeys, List.mem_filter, hkt, hkb]
  · intro e he
    rw [POTComparator.compare] at he
    simp only [List.mem_filterMap] at he
    obtain ⟨k, hk, hget⟩ := he
    simp only [POTComparator.removedKeys, List.mem_filter] at hk
    refine ⟨k, hk.1, ?_, hget⟩
    simpa using hk.2
  · intro k hkb hkt
    obtain ⟨e, he⟩ := (mem_mapKeys_iff_get base k).mp hkb
    refine ⟨e, he, ?_⟩
    rw [POTComparator.compare]
    simp only [List.mem_filterMap]
    refine ⟨k, ?_, he⟩
    simp [POTComparator.removedKeys, List.mem_filter, hkb, hkt]
  · intro p hp
    rw [POTComparator.compare] at hp
    simp only [List.mem_filterMap] at hp
    obtain ⟨k, hk, hget⟩ := hp
    simp only [POTComparator.commonKeys, List.mem_filter] at hk
    have hkt : k ∈ mapKeys target := by simpa using hk.2
    refine ⟨k, hk.1, hkt, ?_⟩
    cases hb : objGet base k with
    | none => rw [hb] at hget; simp at hget
    | some bEntry =>
      cases ht : objGet target k with
      | none => rw [hb, ht] at hget; simp at hget
      | some tEntry =>
        rw [hb, ht] at hget
        by_cases hch : bEntry.hasChangedContent tEntry = true
        · simp only [hch, if_true] at hget
          obtain rfl := Option.some.inj hget
          exact ⟨by simp [hb], by simp [ht], hch⟩
        · simp [hch] at hget
  · intro k b t hkb hkt hb ht hch
    rw [POTComparator.compare]
    simp only [List.mem_filterMap]
    refine ⟨k, ?_, ?_⟩
    · simp [POTComparator.commonKeys, List.mem_filter, hkb, hkt]
    · rw [hb, ht]
      simp [hch]
  · intro k
    constructor
    · rintro (hk | hk | hk)
      · simp only [POTComparator.addedKeys, List.mem_filter] at hk
        exact Or.inr hk.1
      · simp only [POTComparator.removedKeys, List.mem_filter] at hk
        exact Or.inl hk.1
      · simp only [POTComparator.commonKeys, List.mem_filter] at hk
        exact Or.inl hk.1
    · intro hk
      by_cases hkb : k ∈ mapKeys base
      · by_cases hkt : k ∈ mapKeys target
        · exact Or.inr (Or.inr (by simp [POTComparator.commonKeys, List.mem_filter, hkb, hkt]))
        · exact Or.inr (Or.inl (by simp [POTComparator.removedKeys, List.mem_filter, hkb, hkt]))
      · rcases hk with hk | hk
        · exact absurd hk hkb
        · exact Or.inl (by simp [POTComparator.addedKeys, List.mem_filter, hk, hkb])
  · intro k
    refine ⟨?_, ?_, ?_⟩
    · rintro ⟨ha, hr⟩
      simp only [POTComparator.addedKeys, List.mem_filter] at ha
      simp only [POTComparator.removedKeys, List.mem_filter] at hr
      have h1 : k ∉ mapKeys base := by simpa using ha.2
      exact h1 hr.1
    · rintro ⟨ha, hc⟩
      simp only [POTComparator.addedKeys, List.mem_filter] at ha
      simp only [POTComparator.commonKeys, List.mem_filter] at hc
      have h1 : k ∉ mapKeys base := by simpa using ha.2
      exact h1 hc.1
    · rintro ⟨hr, hc⟩
      simp only [POTComparator.removedKeys, List.mem_filter] at hr
      simp only [POTComparator.commonKeys, List.mem_filter] at hc
      have h1 : k ∉ mapKeys target := by simpa using hr.2
      have h2 : k ∈ mapKeys target := by simpa using hc.2
      exact h1 h2

/-- C9: cache round-trip — `set` followed by `get` with the same query
and model returns the entry just stored, carrying exactly the answer
written (and no oracle is involved: `get` is a pure lookup). -/
theorem cache_roundtrip (c : LLMCache) (q m : String) (r : LLMResult) :
    (c.set q m r).get q m =
      some { newString := q, model := some m, result := r, fromReport := false } := by
  rw [LLMCache.get, LLMCache.set]
  simp [objGet_objSet_self]

/-- C3: the cache is consulted before any oracle traffic — a call that
issued at least one oracle query necessarily missed the cache, and (with
the credential present, the only gate the source places before the cache
lookup) a cache hit is answered immediately from the cached entry's
result, with no oracle call and no cache write. -/
theorem findBestMatch_cache_first (newString : String) (baseEntries : List POTEntry)
    (apiKey model : String) (c : LLMCache) (oracle : Nat → OracleOutcome) :
    ((findBestMatchCached newString baseEntries apiKey model c oracle).calls ≠ [] →
      c.get newString model = none) ∧
    (∀ e, jsTrim apiKey ≠ "" → c.get newString model = some e →
      findBestMatchCached newString baseEntries apiKey model c oracle =
        { outcome := .returned e.result, cache := c, calls := [] }) := by
  by_cases hA : jsTrim apiKey = ""
  · constructor
    · intro hcalls
      exact absurd (by simp [findBestMatchCached, hA]) hcalls
    · intro e hA' _
      exact absurd hA hA'
  · cases hget : c.get newString model with
    | some e0 =>
      constructor
      · intro hcalls
        exact absurd (by simp [findBestMatchCached, hA, hget]) hcalls
      · intro e hA' hsome
        obtain rfl := Option.some.inj hsome
        simp [findBestMatchCached, hA, hget]
    | none =>
      constructor
      · intro _
        rfl
      · intro e _ hsome
        cases hsome

theorem matchTruthy_answer {res : LLMResult} (h : matchTruthy res = true) :
    ∃ s, res = LLMResult.answer (some s) ∧ s ≠ "" := by
  cases res with
  | answer o =>
    cases o with
    | none => simp [matchTruthy] at h
    | some s => exact ⟨s, rfl, by simpa [matchTruthy] using h⟩
  | failure e => simp [matchTruthy] at h

theorem batchLoopCached_cache_cases (newString model : String) (baseStrings : List String)
    (oracle : Nat → OracleOutcome) (c : LLMCache) (i r : Nat) :
    (batchLoopCached newString model baseStrings oracle c i r).cache = c ∨
      ∃ m', (batchLoopCached newString model baseStrings oracle c i r).cache =
        c.set newString model (LLMResult.answer m') := by
  induction r generalizing i with
  | zero => exact Or.inr ⟨none, rfl⟩
  | succ r ih =>
    rw [batchLoopCached]
    cases oracle i with
    | thrown e => exact Or.inl rfl
    | resolved res =>
      by_cases hm : matchTruthy res = true
      · obtain ⟨s, rfl, _⟩ := matchTruthy_answer hm
        exact Or.inr ⟨some s, by simp [hm]⟩
      · by_cases he : errorTruthy res = true
        · simp only [hm, if_false, he, if_true, Bool.not_eq_true] at *
          exact Or.inl (by simp [hm, he])
        · simp only [Bool.not_eq_true] at hm he
          rcases ih (i + 1) with h1 | ⟨m', h2⟩
          · exact Or.inl (by simp [hm, he, h1])
          · exact Or.inr ⟨m', by simp [hm, he, h2]⟩

theorem batchLoopCached_failure_cache (newString model : String) (baseStrings : List String)
    (oracle : Nat → OracleOutcome) (c : LLMCache) (i r : Nat) (e : String)
    (h : (batchLoopCached newString model baseStrings oracle c i r).outcome = .raised e ∨
         (batchLoopCached newString model baseStrings oracle c i r).outcome =
           .returned (.failure e)) :
    (batchLoopCached newString model baseStrings oracle c i r).cache = c := by
  induction r generalizing i with
  | zero =>
    rcases h with h | h <;> simp [batchLoopCached] at h
  | succ r ih =>
    rw [batchLoopCached] at h ⊢
    cases hor : oracle i with
    | thrown e' => simp [hor]
    | resolved res =>
      rw [hor] at h
      by_cases hm : matchTruthy res = true
      · obtain ⟨s, rfl, _⟩ := matchTruthy_answer hm
        simp [hm] at h
      · by_cases he : errorTruthy res = true
        · simp [hor, hm, he]
        · simp only [hm, if_false, he] at h ⊢
          exact ih (i + 1) (by simpa [hm, he] using h)

/-- C4: error answers are never written to the Match Cache — whenever a
call ends in a propagated exception or a returned `{error: ...}` result,
the cache is exactly as before the call (so a later call with the same
query and model must consult the oracle again); and the only write any
call can make is one definitive `{match: ...}` entry under its own
(query, model) key. -/
theorem findBestMatch_never_caches_errors (newString : String) (baseEntries : List POTEntry)
    (apiKey model : String) (c : LLMCache) (oracle : Nat → OracleOutcome) :
    (∀ e, ((findBestMatchCached newString baseEntries apiKey model c oracle).outcome =
            .raised e ∨
           (findBestMatchCached newString baseEntries apiKey model c oracle).outcome =
            .returned (.failure e)) →
      (findBestMatchCached newString baseEntries apiKey model c oracle).cache = c) ∧
    ((findBestMatchCached newString baseEntries apiKey model c oracle).cache = c ∨
      ∃ m', (findBestMatchCached newString baseEntries apiKey model c oracle).cache =
        c.set newString model (LLMResult.answer m')) := by
  rw [findBestMatchCached]
  by_cases hA : jsTrim apiKey = ""
  · simp [hA]
  · simp only [hA, if_false]
    cases hget : c.get newString model with
    | some e0 => exact ⟨fun e _ => rfl, Or.inl rfl⟩
    | none =>
      by_cases hF : jsStartsWith apiKey "sk-or-"
      · simp only [hF, not_true, if_false]
        by_cases hQ : jsTrim newString = ""
        · simp [hQ]
        · simp only [hQ, if_false]
          by_cases hE : baseEntries.isEmpty
          · simp [hE]
          · simp only [hE, if_false]
            by_cases hB : (filterBaseStrings baseEntries).isEmpty
            · simp [hB]
            · simp only [hB, if_false]
              exact ⟨fun e he => batchLoopCached_failure_cache _ _ _ _ _ _ _ e he,
                batchLoopCached_cache_cases _ _ _ _ _ _ _⟩
      · simp [hF]

theorem batchLoopNC_calls (baseStrings : List String) (oracle : Nat → OracleOutcome) :
    ∀ (r i : Nat),
      (batchLoopNC baseStrings oracle i r).calls.map Prod.fst =
        List.range' i (batchLoopNC baseStrings oracle i r).calls.length ∧
      (batchLoopNC baseStrings oracle i r).calls.length ≤ r ∧
      ∀ p ∈ (batchLoopNC baseStrings oracle i r).calls, p.2 = batchAt baseStrings p.1 := by
  intro r
  induction r with
  | zero => intro i; simp [batchLoopNC]
  | succ r ih =>
    intro i
    rw [batchLoopNC]
    cases oracle i with
    | thrown e => simp [List.range'_one]
    | resolved res =>
      by_cases hm : matchTruthy res = true
      · simp [hm, List.range'_one]
      · by_cases he : errorTruthy res = true
        · simp [hm, he, List.range'_one]
        · simp only [hm, he, if_false, Bool.false_eq_true]
          obtain ⟨h1, h2, h3⟩ := ih (i + 1)
          refine ⟨?_, ?_, ?_⟩
          · simp only [List.map_cons, List.length_cons, List.range'_succ, h1]
          · simpa using Nat.succ_le_succ h2
          · intro p hp
            rcases List.mem_cons.mp hp with rfl | hp'
            · rfl
            · exact h3 p hp'

theorem batchLoopNC_all_none (baseStrings : List String) (oracle : Nat → OracleOutcome) :
    ∀ (r i : Nat), (∀ j, i ≤ j → j < i + r → oracle j = .resolved (.answer none)) →
      batchLoopNC baseStrings oracle i r =
        { outcome := .returned (.answer none)
          calls := (List.range' i r).map fun j => (j, batchAt baseStrings j) } := by
  intro r
  induction r with
  | zero => intro i _; simp [batchLoopNC]
  | succ r ih =>
    intro i h
    have hi : oracle i = .resolved (.answer none) := h i (le_refl i) (by omega)
    rw [batchLoopNC, hi]
    have hrest := ih (i + 1) fun j hj1 hj2 => h j (by omega) (by omega)
    simp [matchTruthy, errorTruthy, hrest, List.range'_succ]

theorem batchLoopNC_short_circuit (baseStrings : List String) (oracle : Nat → OracleOutcome) :
    ∀ (r i k : Nat) (res : LLMResult), i ≤ k → k < i + r →
      oracle k = .resolved res → matchTruthy res = true →
      (∀ j, i ≤ j → j < k → oracle j = .resolved (.answer none)) →
      batchLoopNC baseStrings oracle i r =
        { outcome := .returned res
          calls := ((List.range' i (k - i)).map fun j => (j, batchAt baseStrings j)) ++
            [(k, batchAt baseStrings k)] } := by
  intro r
  induction r with
  | zero => intro i k res h1 h2 _ _ _; exact absurd h2 (by omega)
  | succ r ih =>
    intro i k res hik hkr hok hmt hnone
    by_cases hk : i = k
    · subst hk
      rw [batchLoopNC, hok]
      simp [hmt, Nat.sub_self]
    · have hi : oracle i = .resolved (.answer none) := hnone i (le_refl i) (by omega)
      rw [batchLoopNC, hi]
      have hrest := ih (i + 1) k res (by omega) (by omega) hok hmt
        fun j hj1 hj2 => hnone j (by omega) hj2
      have hki : k - i = (k - (i + 1)) + 1 := by omega
      simp [matchTruthy, errorTruthy, hrest, hki, List.range'_succ]

/-- C5: under the non-degenerate entry conditions, `findBestMatch` sends
only slices of the filtered candidate pool, in batch order starting at
batch 0, at most `maxBatches` batches of at most `batchSize` candidates
each (so at most 10000 candidates in total); a truthy match at batch `k`
stops the loop with exactly `k + 1` batches queried and that result
returned; and if every allowed batch resolves `{match: null}` the call
returns `{match: null}` after querying every allowed batch. -/
theorem findBestMatch_batching (newString : String) (baseEntries : List POTEntry)
    (apiKey model : String) (oracle : Nat → OracleOutcome)
    (hkey : jsTrim apiKey ≠ "") (hfmt : jsStartsWith apiKey "sk-or-" = true)
    (hq : jsTrim newString ≠ "") (hpool : filterBaseStrings baseEntries ≠ []) :
    (LLMMatcher.findBestMatch newString baseEntries apiKey model oracle).calls.length ≤
      maxBatches ∧
    (∀ p ∈ (LLMMatcher.findBestMatch newString baseEntries apiKey model oracle).calls,
      p.2 = batchAt (filterBaseStrings baseEntries) p.1 ∧ p.2.length ≤ batchSize) ∧
    ((LLMMatcher.findBestMatch newString baseEntries apiKey model oracle).calls.map
        fun p => p.2.length).sum ≤ maxBatches * batchSize ∧
    (LLMMatcher.findBestMatch newString baseEntries apiKey model oracle).calls.map Prod.fst =
      List.range
        (LLMMatcher.findBestMatch newString baseEntries apiKey model oracle).calls.length ∧
    ((∀ j, j < numBatches (filterBaseStrings baseEntries) →
        oracle j = .resolved (.answer none)) →
      (LLMMatcher.findBestMatch newString baseEntries apiKey model oracle).outcome =
        .returned (.answer none) ∧
      (LLMMatcher.findBestMatch newString baseEntries apiKey model oracle).calls.length =
        numBatches (filterBaseStrings baseEntries)) ∧
    (∀ k res, k < numBatches (filterBaseStrings baseEntries) →
      oracle k = .resolved res → matchTruthy res = true →
      (∀ j, j < k → oracle j = .resolved (.answer none)) →
      (LLMMatcher.findBestMatch newString baseEntries apiKey model oracle).outcome =
        .returned res ∧
      (LLMMatcher.findBestMatch newString baseEntries apiKey model oracle).calls.length =
        k + 1) := by
  have hne : ¬baseEntries.isEmpty := by
    intro hempty
    apply hpool
    rw [List.isEmpty_iff] at hempty
    simp [filterBaseStrings, hempty]
  have hbs : ¬(filterBaseStrings baseEntries).isEmpty := by
    simpa [List.isEmpty_iff] using hpool
  have hrun : LLMMatcher.findBestMatch newString baseEntries apiKey model oracle =
      batchLoopNC (filterBaseStrings baseEntries) oracle 0
        (numBatches (filterBaseStrings baseEntries)) := by
    rw [LLMMatcher.findBestMatch]
    simp [hkey, hfmt, hq, hne, hbs]
  rw [hrun]
  set bs := filterBaseStrings baseEntries
  set n := numBatches bs with hn
  obtain ⟨hc1, hc2, hc3⟩ := batchLoopNC_calls bs oracle n 0
  have hnle : n ≤ maxBatches := min_le_left _ _
  have hlen : (batchLoopNC bs oracle 0 n).calls.length ≤ maxBatches := le_trans hc2 hnle
  have hbatchlen : ∀ p ∈ (batchLoopNC bs oracle 0 n).calls, p.2.length ≤ batchSize := by
    intro p hp
    rw [hc3 p hp, batchAt]
    exact le_trans (List.length_take_le _ _) (le_refl _)
  refine ⟨hlen, fun p hp => ⟨hc3 p hp, hbatchlen p hp⟩, ?_, ?_, ?_, ?_⟩
  · calc ((batchLoopNC bs oracle 0 n).calls.map fun p => p.2.length).sum ≤
        ((batchLoopNC bs oracle 0 n).calls.map fun p => p.2.length).length • batchSize :=
          List.sum_le_card_nsmul _ _ (by
            intro x hx
            obtain ⟨p, hp, rfl⟩ := List.mem_map.mp hx
            exact hbatchlen p hp)
    _ = (batchLoopNC bs oracle 0 n).calls.length * batchSize := by
          rw [List.length_map, smul_eq_mul]
    _ ≤ maxBatches * batchSize := Nat.mul_le_mul_right _ hlen
  · rw [hc1, List.range_eq_range']
  · intro hall
    have := batchLoopNC_all_none bs oracle n 0 fun j hj1 hj2 => hall j (by omega)
    rw [this]
    simp
  · intro k res hk hok hmt hnone
    have := batchLoopNC_short_circuit bs oracle n 0 k res (Nat.zero_le k) (by omega) hok hmt
      fun j hj1 hj2 => hnone j hj2
    rw [this]
    simp [Nat.sub_zero]

/-- Witness for C5: a two-candidate pool under an all-no-match oracle
stays within the batch cap. -/
theorem findBestMatch_batching_witness :
    (LLMMatcher.findBestMatch "Full Name" [{ msgid := "Name" }, { msgid := "Email" }]
      "sk-or-test" "m" fun _ => .resolved (.answer none)).calls.length ≤ maxBatches :=
  (findBestMatch_batching "Full Name" [{ msgid := "Name" }, { msgid := "Email" }]
    "sk-or-test" "m" (fun _ => .resolved (.answer none))
    (by decide) (by decide) (by decide) (by decide)).1

/-- C6: the fast exits of the current `findBestMatch` never touch the
oracle — an absent or whitespace credential yields `{match: null}`, a
present credential failing the `sk-or-` format check yields
`{error: "Invalid key format"}`, and an empty query or empty candidate
pool yields `{match: null}`, all with no oracle call. -/
theorem findBestMatch_fast_exits (newString : String) (baseEntries : List POTEntry)
    (apiKey model : String) (oracle : Nat → OracleOutcome) :
    (jsTrim apiKey = "" →
      LLMMatcher.findBestMatch newString baseEntries apiKey model oracle =
        { outcome := .returned (.answer none), calls := [] }) ∧
    (jsTrim apiKey ≠ "" → jsStartsWith apiKey "sk-or-" = false →
      LLMMatcher.findBestMatch newString baseEntries apiKey model oracle =
        { outcome := .returned (.failure "Invalid key format"), calls := [] }) ∧
    (jsTrim apiKey ≠ "" → jsStartsWith apiKey "sk-or-" = true → jsTrim newString = "" →
      LLMMatcher.findBestMatch newString baseEntries apiKey model oracle =
        { outcome := .returned (.answer none), calls := [] }) ∧
    (jsTrim apiKey ≠ "" → jsStartsWith apiKey "sk-or-" = true → baseEntries = [] →
      LLMMatcher.findBestMatch newString baseEntries apiKey model oracle =
        { outcome := .returned (.answer none), calls := [] }) := by
  refine ⟨?_, ?_, ?_, ?_⟩
  · intro h
    simp [LLMMatcher.findBestMatch, h]
  · intro h1 h2
    simp [LLMMatcher.findBestMatch, h1, h2]
  · intro h1 h2 h3
    simp [LLMMatcher.findBestMatch, h1, h2, h3]
  · intro h1 h2 h3
    subst h3
    simp [LLMMatcher.findBestMatch, h1, h2]

/-- C7 (amended): when neither the hashed key nor the direct string key
is present, `get` falls back to scanning for a report-originated entry
and returns one satisfying the fuzzy test — the live query extends the
stored ellipsis-stripped prefix, or the live query is strictly longer
than 40 characters and the stored query starts with its first 40
characters. -/
theorem get_fuzzy_fallback (c : LLMCache) (query model : String)
    (hhash : objGet c.cache (LLMCache.generateKey query model) = none)
    (hdirect : objGet c.cache query = none)
    (hexists : ∃ kv ∈ c.cache, fuzzyHit query kv.2 = true) :
    ∃ e, c.get query model = some e ∧ fuzzyHit query e = true := by
  rw [LLMCache.get, hhash, hdirect]
  have hsome : (c.cache.find? fun kv => fuzzyHit query kv.2).isSome := by
    rw [List.find?_isSome]
    exact hexists
  obtain ⟨p, hp⟩ := Option.isSome_iff_exists.mp hsome
  have hfz : fuzzyHit query p.2 = true := by
    simpa using @List.find?_some _ (fun kv => fuzzyHit query kv.2) p c.cache hp
  refine ⟨p.2, ?_, hfz⟩
  simp [hp]

/-- Witness for C7 (amended): the cache populated with the truncated key
`"Please sign in to cont..."` answers `get("Please sign in to continue", model)`
through the fuzzy fallback. -/
theorem get_fuzzy_fallback_witness :
    ∃ e, truncatedCache.get "Please sign in to continue" "anthropic/claude-3.5-sonnet" =
        some e ∧ fuzzyHit "Please sign in to continue" e = true :=
  get_fuzzy_fallback truncatedCache "Please sign in to continue" "anthropic/claude-3.5-sonnet"
    (by decide) (by decide)
    ⟨("Please sign in to cont...", truncatedEntry), by decide, by decide⟩

/-- Counterexample for C7 as stated: a report-originated entry whose
recorded query's first 40 characters equal the live query's first 40
characters, with no hashed-key and no direct-key hit — yet `get` returns
nothing, because the source additionally requires the live query to be
strictly longer than 40 characters. -/
theorem get_fuzzy_fallback_counterexample :
    objGet boundaryCache.cache (LLMCache.generateKey boundaryQuery "m") = none ∧
    objGet boundaryCache.cache boundaryQuery = none ∧
    boundaryEntry ∈ boundaryCache.cache.map Prod.snd ∧
    boundaryEntry.fromReport = true ∧
    boundaryEntry.newString ≠ "" ∧
    jsTake boundaryEntry.newString 40 = jsTake boundaryQuery 40 ∧
    jsLength boundaryQuery = 40 ∧
    LLMCache.get boundaryCache boundaryQuery "m" = none := by
  decide

theorem mem_objSet {α : Type} (m : List (String × α)) (k : String) (v : α)
    (kv : String × α) (h : kv ∈ objSet m k v) : kv ∈ m ∨ kv = (k, v) := by
  induction m with
  | nil =>
    rw [objSet] at h
    exact Or.inr (List.mem_singleton.mp h)
  | cons hd tl ih =>
    obtain ⟨k', v'⟩ := hd
    by_cases hk : k' = k
    · rw [objSet, if_pos hk] at h
      rcases List.mem_cons.mp h with rfl | hm
      · exact Or.inr rfl
      · exact Or.inl (List.mem_cons_of_mem _ hm)
    · rw [objSet, if_neg hk] at h
      rcases List.mem_cons.mp h with rfl | hm
      · exact Or.inl (List.mem_cons_self _ _)
      · rcases ih hm with h1 | h2
        · exact Or.inl (List.mem_cons_of_mem _ h1)
        · exact Or.inr h2

theorem insertRow_valid (st : ExtractState) (a b : String)
    (h : ∀ kv ∈ st.cache, LLMCache.isValidMatch kv.2.newString kv.2.matchText = true) :
    ∀ kv ∈ (insertRow st a b).cache,
      LLMCache.isValidMatch kv.2.newString kv.2.matchText = true := by
  intro kv hkv
  rw [insertRow] at hkv
  by_cases hval : LLMCache.isValidMatch (LLMCache.unescapeMarkdown a)
      (LLMCache.unescapeMarkdown b) = true
  · simp only [hval, if_true] at hkv
    rcases mem_objSet _ _ _ _ hkv with hm | rfl
    · exact h kv hm
    · exact hval
  · simp only [hval, if_false, Bool.false_eq_true] at hkv
    exact h kv (by simpa using hkv)

theorem extractRowStep_cache_cases (st : ExtractState) (line : String) :
    (extractRowStep st line).cache = st.cache ∨
      ∃ a b, extractRowStep st line = insertRow st a b := by
  rw [extractRowStep]
  split_ifs with hA hB hC
  · exact Or.inl rfl
  · exact Or.inr ⟨_, _, rfl⟩
  · exact Or.inr ⟨_, _, rfl⟩
  · exact Or.inl rfl

theorem extractLineStep_cache_cases (st : ExtractState) (rawLine : String) :
    (extractLineStep st rawLine).cache = st.cache ∨
      ∃ a b, extractLineStep st rawLine = insertRow st a b := by
  rw [extractLineStep, extractTrimmedLine]
  split_ifs with hA hB hC hD hE
  · exact Or.inl rfl
  · exact Or.inl rfl
  · exact Or.inl rfl
  · exact Or.inl rfl
  · exact extractRowStep_cache_cases st (jsTrim rawLine)
  · exact Or.inl rfl

theorem isValidMatch_spec (n m : String) (h : LLMCache.isValidMatch n m = true) :
    m ≠ "" ∧ n ≠ "" ∧ m ≠ "-" ∧ m ≠ "..." ∧ jsStartsWith m "*" = false ∧
    jsStartsWith m "LLM Error" = false ∧
    ¬(jsIncludes m "and " = true ∧ jsIncludes m "more" = true) := by
  rw [LLMCache.isValidMatch] at h
  split_ifs at h with h1 h2 h3 h4 h5 h6
  push_neg at h1 h2
  exact ⟨h1.1, h1.2, h2.1, h2.2, by simpa using h3, by simpa using h4, h5⟩

theorem convert_preserves (extracted : List (String × ExtractedEntry))
    (Q : String × CacheEntry → Prop)
    (hq : ∀ p ∈ extracted, Q (p.1, reportEntry p.2)) :
    ∀ acc : List (String × CacheEntry), (∀ kv ∈ acc, Q kv) →
      ∀ kv ∈ extracted.foldl (fun cache p => objSet cache p.1 (reportEntry p.2)) acc,
        Q kv := by
  induction extracted with
  | nil => intro acc hacc kv hkv; exact hacc kv hkv
  | cons hd tl ih =>
    intro acc hacc kv hkv
    refine ih (fun p hp => hq p (List.mem_cons_of_mem _ hp)) _ ?_ kv hkv
    intro kv' hkv'
    rcases mem_objSet _ _ _ _ hkv' with hm | rfl
    · exact hacc kv' hm
    · exact hq hd (List.mem_cons_self _ _)

theorem extract_rows_valid (commentBody : String)
    (extracted : List (String × ExtractedEntry))
    (h : LLMCache.extractCacheFromComment commentBody = some extracted) :
    ∀ kv ∈ extracted, LLMCache.isValidMatch kv.2.newString kv.2.matchText = true := by
  rw [LLMCache.extractCacheFromComment] at h
  split_ifs at h with h1 h2 h3
  obtain rfl := Option.some.inj h
  apply foldl_preserves (fun st : ExtractState =>
    ∀ kv ∈ st.cache, LLMCache.isValidMatch kv.2.newString kv.2.matchText = true)
  · intro st line hst
    rcases extractLineStep_cache_cases st line with hc | ⟨a, b, hc⟩
    · rw [hc]; exact hst
    · rw [hc]; exact insertRow_valid st a b hst
  · intro kv hkv
    simp [ExtractState.cache] at hkv

/-- C10: every cache entry reconstructed by parsing a rendered report
carries a non-empty positive match — every extracted row passes
`_isValidMatch` (so "-", "...", `*`-italicised no-match markers,
"LLM Error" messages and overflow rows are all discarded), and conversion
turns each surviving row into a report-flagged entry whose result is
`{match: someText}`; no `{match: null}` and no error answer ever survives
the report round-trip. -/
theorem extract_only_positive_survives (commentBody : String)
    (extracted : List (String × ExtractedEntry))
    (h : LLMCache.extractCacheFromComment commentBody = some extracted) :
    (∀ kv ∈ extracted, LLMCache.isValidMatch kv.2.newString kv.2.matchText = true) ∧
    (∀ kv ∈ LLMCache.convertExtractedCache extracted,
      kv.2.fromReport = true ∧
      ∃ mt, kv.2.result = LLMResult.answer (some mt) ∧ mt ≠ "" ∧ mt ≠ "-" ∧ mt ≠ "..." ∧
        jsStartsWith mt "*" = false ∧ jsStartsWith mt "LLM Error" = false) := by
  have hvalid := extract_rows_valid commentBody extracted h
  refine ⟨hvalid, ?_⟩
  rw [LLMCache.convertExtractedCache]
  refine convert_preserves extracted _ ?_ [] (by simp)
  intro p hp
  obtain ⟨hm1, _, hm2, hm3, hm4, hm5, _⟩ := isValidMatch_spec _ _ (hvalid p hp)
  exact ⟨rfl, p.2.matchText, rfl, hm1, hm2, hm3, hm4, hm5⟩

/-- Witness for C10: the one row of `sampleReportBody` survives
extraction and converts to a positive `{match: "World"}` entry. -/
theorem extract_only_positive_survives_witness :
    (∀ kv ∈ [("Hello", (⟨"Hello", "World"⟩ : ExtractedEntry))],
      LLMCache.isValidMatch kv.2.newString kv.2.matchText = true) ∧
    (∀ kv ∈ LLMCache.convertExtractedCache [("Hello", ⟨"Hello", "World"⟩)],
      kv.2.fromReport = true ∧
      ∃ mt, kv.2.result = LLMResult.answer (some mt) ∧ mt ≠ "" ∧ mt ≠ "-" ∧ mt ≠ "..." ∧
        jsStartsWith mt "*" = false ∧ jsStartsWith mt "LLM Error" = false) :=
  extract_only_positive_survives sampleReportBody [("Hello", ⟨"Hello", "World"⟩)] (by decide)

/-- C8: building an index computes the identity key as
`context ++ "||" ++ primaryText` for a non-empty context and as
`primaryText` alone otherwise; insertion silently overwrites an earlier
record with the same key (last definition wins), so the built map has
unique keys, and two same-keyed records leave exactly one entry carrying
the second record's values. -/
theorem processEntries_key_semantics :
    (∀ e : POTEntry,
      (e.msgctxt ≠ "" → e.getKey = e.msgctxt ++ "||" ++ e.msgid) ∧
      (e.msgctxt = "" → e.getKey = e.msgid)) ∧
    (∀ (parsed : ParsedTranslations) (m : EntriesMap),
      (mapKeys m).Nodup → (mapKeys (POTComparator.processEntries parsed m)).Nodup) ∧
    (∀ (id1 id2 : String) (d1 d2 : RawData),
      id1 ≠ "" → id2 ≠ "" →
      (entryOfDefault id1 d1).getKey = (entryOfDefault id2 d2).getKey →
      POTComparator.processEntries [("", [(id1, d1), (id2, d2)])] [] =
        [((entryOfDefault id2 d2).getKey, entryOfDefault id2 d2)]) := by
  refine ⟨?_, ?_, ?_⟩
  · intro e
    constructor
    · intro h; simp [POTEntry.getKey, h]
    · intro h; simp [POTEntry.getKey, h]
  · intro parsed m h
    have hstep : ∀ (ctx : String) (s : EntriesMap) (p : String × RawData),
        (mapKeys s).Nodup →
        (mapKeys (if p.1 = "" then s
          else objSet s (entryOfContext ctx p.1 p.2).getKey (entryOfContext ctx p.1 p.2))).Nodup := by
      intro ctx s p hp
      split
      · exact hp
      · exact nodup_keys_objSet _ _ _ hp
    have hstep0 : ∀ (s : EntriesMap) (p : String × RawData),
        (mapKeys s).Nodup →
        (mapKeys (if p.1 = "" then s
          else objSet s (entryOfDefault p.1 p.2).getKey (entryOfDefault p.1 p.2))).Nodup := by
      intro s p hp
      split
      · exact hp
      · exact nodup_keys_objSet _ _ _ hp
    rw [POTComparator.processEntries]
    apply foldl_preserves (fun s => (mapKeys s).Nodup)
    · intro s cp hp
      dsimp only
      split
      · exact hp
      · exact foldl_preserves (fun s => (mapKeys s).Nodup) _ (hstep cp.1) cp.2 s hp
    · exact foldl_preserves (fun s => (mapKeys s).Nodup) _ hstep0 _ m h
  · intro id1 id2 d1 d2 h1 h2 hkey
    simp [POTComparator.processEntries, objGet, objSet, h1, h2, hkey]

end I18nReview
